import Mathlib

/-!
BasicEngine: matching-engine core, shallow embedding.

Shallow embedding of the matching-engine core of the BasicEngine
repository (`src/engine/models.rs`, `src/engine/core.rs`), together with a
model of the per-pair order book (`SimpleOrderBook`) whose source file is
not part of the provided sources and is therefore modelled from the spec.

Prices and quantities (`f64` in the source) are modelled as rationals;
timestamps (`DateTime<Utc>`) as naturals; the `HashMap<TradingPair, _>` as
an association list; `tokio` reply channels as a boolean flag on the query
message saying whether the caller has dropped the receiving end, plus an
optional reply value produced by the handler (`none` when the send failed).
-/

namespace BasicEngine

/-- `OrderType` from `models.rs`: side of an order. -/
inductive OrderType where
  | Buy
  | Sell
deriving DecidableEq, Repr

/-- `TradingPair` from `models.rs`: base and quote symbol strings. -/
structure TradingPair where
  base : String
  quote : String
deriving DecidableEq, Repr

/-- Rust `str::split(sep)` over the characters of a string: splits on every
occurrence of `sep`; the empty input yields `[[]]`, a lone separator yields
`[[], []]`. -/
def splitChar (sep : Char) : List Char → List (List Char)
  | [] => [[]]
  | c :: cs =>
    if c = sep then [] :: splitChar sep cs
    else
      match splitChar sep cs with
      | [] => [[c]]
      | p :: ps => (c :: p) :: ps

/-- `TradingPair::from_string` from `models.rs`: split on `'/'`; error unless
the split yields exactly two parts; otherwise the parts become base and
quote. -/
def TradingPair.from_string (s : String) : Except String TradingPair :=
  let parts := splitChar '/' s.data
  if parts.length = 2 then
    Except.ok { base := String.mk (parts.getD 0 []), quote := String.mk (parts.getD 1 []) }
  else
    Except.error "Invalid trading pair format. Use BASE/QUOTE"

/-- `Order` from `models.rs` (price/quantity as rationals, timestamp as a
natural). -/
structure Order where
  id : Nat
  trading_pair : TradingPair
  order_type : OrderType
  price : ℚ
  quantity : ℚ
  timestamp : Nat
deriving DecidableEq, Repr

/-- `Trade` from `models.rs`. -/
structure Trade where
  id : Nat
  trading_pair : TradingPair
  buy_order_id : Nat
  sell_order_id : Nat
  price : ℚ
  quantity : ℚ
  timestamp : Nat
deriving DecidableEq, Repr

/-- Modelled from the spec: `PriceUpdate` (referenced by `core.rs`, not
defined in the provided sources); "accepted but not yet wired into book
state; informational only", so its payload is an opaque pair/price record. -/
structure PriceUpdate where
  trading_pair : TradingPair
  price : ℚ
deriving DecidableEq, Repr

/-- Modelled from the spec: `OrderBookEntry` (from the missing `api.rs`):
a `(price, quantity)` snapshot entry of one resting order. -/
structure OrderBookEntry where
  price : ℚ
  quantity : ℚ
deriving DecidableEq, Repr

/-- Modelled from the spec: a resting order inside one side of a book; the
book tracks its remaining quantity as book-internal state, not a mutation of
the submitted `Order` value. -/
structure BookOrder where
  id : Nat
  price : ℚ
  quantity : ℚ
  timestamp : Nat
deriving DecidableEq, Repr

/-- Modelled from the spec: `SimpleOrderBook` (from the missing
`order_book.rs`): per-pair resting bid/ask queues (bids ordered by price
descending then arrival ascending, asks by price ascending then arrival
ascending), the append-only trade ledger, the last-traded price (`none`
until the first trade), and a counter producing unique trade ids. -/
structure SimpleOrderBook where
  pair : TradingPair
  bids : List BookOrder
  asks : List BookOrder
  trades : List Trade
  lastPrice : Option ℚ
  nextTradeId : Nat
deriving DecidableEq, Repr

/-- Modelled from the spec: `SimpleOrderBook::new` creates the empty book of
a pair. -/
def SimpleOrderBook.new (pair : TradingPair) : SimpleOrderBook :=
  { pair := pair, bids := [], asks := [], trades := [], lastPrice := none,
    nextTradeId := 0 }

/-- Modelled from the spec: insertion into the bid queue, positioned by
(price descending, arrival ascending); a new order goes after every resting
order of the same price. -/
def insertBid (o : BookOrder) : List BookOrder → List BookOrder
  | [] => [o]
  | x :: xs => if x.price < o.price then o :: x :: xs else x :: insertBid o xs

/-- Modelled from the spec: insertion into the ask queue, positioned by
(price ascending, arrival ascending). -/
def insertAsk (o : BookOrder) : List BookOrder → List BookOrder
  | [] => [o]
  | x :: xs => if o.price < x.price then o :: x :: xs else x :: insertAsk o xs

/-- Modelled from the spec: `add_order` inserts a new resting order into the
side matching its `order_type`; no matching is triggered by insertion. -/
def SimpleOrderBook.add_order (b : SimpleOrderBook) (o : Order) : SimpleOrderBook :=
  let r : BookOrder :=
    { id := o.id, price := o.price, quantity := o.quantity, timestamp := o.timestamp }
  match o.order_type with
  | OrderType.Buy => { b with bids := insertBid r b.bids }
  | OrderType.Sell => { b with asks := insertAsk r b.asks }

/-- State threaded through one `match_orders` pass. -/
structure MatchState where
  bids : List BookOrder
  asks : List BookOrder
  newTrades : List Trade
  lastPrice : Option ℚ
  nextTradeId : Nat
deriving DecidableEq, Repr

/-- Modelled from the spec: the body of the `match_orders` loop. Repeatedly
inspects the best bid and best ask; stops when a side is empty or best-bid
price < best-ask price; otherwise trades min of the two remaining quantities
at the earlier-arrived (resting) order's price, removes any order whose
remaining quantity reaches zero, appends the trade and updates the
last-traded price. The fuel bounds the iteration count; each iteration
removes at least one resting order, so `bids.length + asks.length` fuel is
always enough. -/
def matchLoop (pair : TradingPair) : Nat → MatchState → MatchState
  | 0, s => s
  | fuel + 1, s =>
    match s.bids, s.asks with
    | [], _ => s
    | _, [] => s
    | bid :: restBids, ask :: restAsks =>
      if bid.price < ask.price then s
      else
        let qty := min bid.quantity ask.quantity
        let tradePrice := if bid.timestamp ≤ ask.timestamp then bid.price else ask.price
        let trade : Trade :=
          { id := s.nextTradeId, trading_pair := pair, buy_order_id := bid.id,
            sell_order_id := ask.id, price := tradePrice, quantity := qty,
            timestamp := max bid.timestamp ask.timestamp }
        let bids' := if bid.quantity - qty = 0 then restBids
                     else { bid with quantity := bid.quantity - qty } :: restBids
        let asks' := if ask.quantity - qty = 0 then restAsks
                     else { ask with quantity := ask.quantity - qty } :: restAsks
        matchLoop pair fuel
          { bids := bids', asks := asks', newTrades := s.newTrades ++ [trade],
            lastPrice := some tradePrice, nextTradeId := s.nextTradeId + 1 }

/-- Modelled from the spec: `match_orders` runs the matching pass to
completion and returns the updated book together with the trades generated
in this pass, in generation order. -/
def SimpleOrderBook.match_orders (b : SimpleOrderBook) : SimpleOrderBook × List Trade :=
  let s := matchLoop b.pair (b.bids.length + b.asks.length)
    { bids := b.bids, asks := b.asks, newTrades := [], lastPrice := b.lastPrice,
      nextTradeId := b.nextTradeId }
  let b' : SimpleOrderBook :=
    { b with bids := s.bids, asks := s.asks, trades := b.trades ++ s.newTrades,
             lastPrice := s.lastPrice, nextTradeId := s.nextTradeId }
  (b', s.newTrades)

/-- Modelled from the spec: `get_current_price` returns the last-traded
price, `none` if no trade has ever occurred. -/
def SimpleOrderBook.get_current_price (b : SimpleOrderBook) : Option ℚ :=
  b.lastPrice

/-- Modelled from the spec: `get_order_book` returns a read-only
`(price, quantity)` snapshot of each side in priority order. -/
def SimpleOrderBook.get_order_book (b : SimpleOrderBook) :
    List OrderBookEntry × List OrderBookEntry :=
  (b.bids.map fun o => { price := o.price, quantity := o.quantity },
   b.asks.map fun o => { price := o.price, quantity := o.quantity })

/-- Modelled from the spec: `get_trade_history` returns the full ledger in
chronological order. -/
def SimpleOrderBook.get_trade_history (b : SimpleOrderBook) : List Trade :=
  b.trades

/-- Modelled from the spec: `get_active_orders_count` sums the resting
orders across both sides. -/
def SimpleOrderBook.get_active_orders_count (b : SimpleOrderBook) : Nat :=
  b.bids.length + b.asks.length

/-- Two sides are not crossed when one is empty or the best (front) bid
price is strictly below the best (front) ask price. -/
def uncrossedSides (bids asks : List BookOrder) : Bool :=
  match bids, asks with
  | bid :: _, ask :: _ => bid.price < ask.price
  | _, _ => true

/-- A book is not crossed when a side is empty or the best bid price is
strictly below the best ask price. -/
def SimpleOrderBook.uncrossed (b : SimpleOrderBook) : Bool :=
  uncrossedSides b.bids b.asks

/-- A match-pass state is not crossed, side-by-side. -/
def MatchState.uncrossed (s : MatchState) : Bool :=
  uncrossedSides s.bids s.asks

/-- `Message` from `core.rs`. Each query message carries a reply channel;
it is modelled by a boolean saying whether the caller has already dropped
the receiving end when the Engine sends its response. -/
inductive Message where
  | NewOrder (order : Order)
  | PriceUpdate (update : PriceUpdate)
  | MatchOrders (pair : TradingPair)
  | GetPrice (pair : TradingPair) (receiverDropped : Bool)
  | GetOrderBook (pair : TradingPair) (receiverDropped : Bool)
  | GetTradeHistory (pair : TradingPair) (receiverDropped : Bool)
  | Shutdown
deriving DecidableEq, Repr

/-- A value the Engine successfully delivered on a caller's reply channel. -/
inductive Reply where
  | price (p : Option ℚ)
  | book (bids : List OrderBookEntry) (asks : List OrderBookEntry)
  | history (trades : List Trade)
deriving DecidableEq, Repr

/-- The Engine's `order_books: HashMap<TradingPair, Box<dyn OrderBook>>`,
modelled as an association list with distinct keys looked up by structural
equality. -/
structure Engine where
  order_books : List (TradingPair × SimpleOrderBook)
deriving DecidableEq, Repr

/-- `HashMap::get`. -/
def lookupBook (books : List (TradingPair × SimpleOrderBook)) (p : TradingPair) :
    Option SimpleOrderBook :=
  match books with
  | [] => none
  | (q, b) :: rest => if q = p then some b else lookupBook rest p

/-- `HashMap::insert` of a key known to be absent: the new binding is added,
every existing binding is kept. -/
def insertBook (books : List (TradingPair × SimpleOrderBook)) (p : TradingPair)
    (b : SimpleOrderBook) : List (TradingPair × SimpleOrderBook) :=
  books ++ [(p, b)]

/-- Replacement of the book bound to an existing key (the interior mutation
of a book reached through `HashMap::get`). -/
def updateBook (books : List (TradingPair × SimpleOrderBook)) (p : TradingPair)
    (b : SimpleOrderBook) : List (TradingPair × SimpleOrderBook) :=
  match books with
  | [] => []
  | (q, old) :: rest => if q = p then (q, b) :: rest else (q, old) :: updateBook rest p b

/-- `Engine::process_get_price` from `core.rs`: if a book exists its current
price is read; otherwise a new book is created, its price read, and the book
inserted into the map; then the price is sent, a failed send being logged
and ignored. Returns the engine state and the delivered reply, if any. -/
def Engine.process_get_price (e : Engine) (pair : TradingPair)
    (receiverDropped : Bool) : Engine × Option Reply :=
  match lookupBook e.order_books pair with
  | some book =>
    (e, if receiverDropped then none else some (Reply.price book.get_current_price))
  | none =>
    let book := SimpleOrderBook.new pair
    let price := book.get_current_price
    ({ order_books := insertBook e.order_books pair book },
     if receiverDropped then none else some (Reply.price price))

/-- `Engine::process_get_order_book` from `core.rs`: an existing book's
snapshot, or empty bid/ask lists, is sent; a failed send is ignored and the
engine state is untouched. -/
def Engine.process_get_order_book (e : Engine) (pair : TradingPair)
    (receiverDropped : Bool) : Engine × Option Reply :=
  match lookupBook e.order_books pair with
  | some book =>
    (e, if receiverDropped then none
        else some (Reply.book book.get_order_book.1 book.get_order_book.2))
  | none =>
    (e, if receiverDropped then none else some (Reply.book [] []))

/-- `Engine::process_get_trade_history` from `core.rs`: an existing book's
ledger, or the empty list, is sent; a failed send is ignored and the engine
state is untouched. -/
def Engine.process_get_trade_history (e : Engine) (pair : TradingPair)
    (receiverDropped : Bool) : Engine × Option Reply :=
  match lookupBook e.order_books pair with
  | some book =>
    (e, if receiverDropped then none else some (Reply.history book.get_trade_history))
  | none =>
    (e, if receiverDropped then none else some (Reply.history []))

/-- `Engine::shutdown` from `core.rs`: runs `match_orders` on every existing
book (the trades are only logged), then tallies the active orders for the
final log line. -/
def Engine.shutdown (e : Engine) : Engine :=
  { order_books := e.order_books.map fun pb => (pb.1, pb.2.match_orders.1) }

/-- One iteration of the `Engine::run` dispatch loop from `core.rs`: the
resulting engine state, the reply delivered on the message's channel if any,
and whether the loop continues (`false` exactly when the message was
`Shutdown`, whose handler drains every book before the loop breaks). -/
def Engine.step (e : Engine) (m : Message) : Engine × Option Reply × Bool :=
  match m with
  | Message.NewOrder o =>
    let book := match lookupBook e.order_books o.trading_pair with
      | some b => b
      | none => SimpleOrderBook.new o.trading_pair
    let book' := book.add_order o
    let books' := match lookupBook e.order_books o.trading_pair with
      | some _ => updateBook e.order_books o.trading_pair book'
      | none => insertBook e.order_books o.trading_pair book'
    ({ order_books := books' }, none, true)
  | Message.GetOrderBook pair dropped =>
    let r := e.process_get_order_book pair dropped
    (r.1, r.2, true)
  | Message.GetTradeHistory pair dropped =>
    let r := e.process_get_trade_history pair dropped
    (r.1, r.2, true)
  | Message.PriceUpdate _ => (e, none, true)
  | Message.MatchOrders pair =>
    match lookupBook e.order_books pair with
    | some book =>
      ({ order_books := updateBook e.order_books pair book.match_orders.1 }, none, true)
    | none => (e, none, true)
  | Message.GetPrice pair dropped =>
    let r := e.process_get_price pair dropped
    (r.1, r.2, true)
  | Message.Shutdown => (e.shutdown, none, false)

/-- `Engine::run` from `core.rs` over a finite inbound queue: the queue
closing with no sender left is the end of the list. Returns the final engine
state and the list of messages the loop actually dequeued and processed;
after a `Shutdown` the loop breaks without touching the rest of the queue. -/
def Engine.run (e : Engine) : List Message → Engine × List Message
  | [] => (e, [])
  | m :: rest =>
    let r := e.step m
    if r.2.2 then
      let t := r.1.run rest
      (t.1, m :: t.2)
    else
      (r.1, [m])

/-- The keys of the Engine's pair-to-book map. -/
def booksKeys (e : Engine) : List TradingPair :=
  e.order_books.map Prod.fst

/-- The only messages whose handlers ever insert a new book into the map. -/
def insertsBook : Message → Bool
  | Message.NewOrder _ => true
  | Message.GetPrice _ _ => true
  | _ => false

/-- The pair `BTC/USD`, used by the concrete witnesses. -/
def btcusd : TradingPair :=
  { base := "BTC", quote := "USD" }

/-- A concrete buy order on `BTC/USD`, used by the concrete witnesses. -/
def sampleOrder : Order :=
  { id := 1, trading_pair := btcusd, order_type := OrderType.Buy, price := 100,
    quantity := 10, timestamp := 0 }

/-- A concrete price update on `BTC/USD`, used by the concrete witnesses. -/
def sampleUpdate : PriceUpdate :=
  { trading_pair := btcusd, price := 99 }

/-! ## Lemmas about `splitChar` -/

theorem splitChar_ne_nil (sep : Char) (l : List Char) : splitChar sep l ≠ [] := by
  cases l with
  | nil => simp [splitChar]
  | cons c cs =>
    simp only [splitChar]
    by_cases h : c = sep
    · simp [h]
    · simp only [h, if_false]
      cases splitChar sep cs <;> simp

theorem splitChar_length (sep : Char) (l : List Char) :
    (splitChar sep l).length = l.count sep + 1 := by
  induction l with
  | nil => simp [splitChar]
  | cons c cs ih =>
    simp only [splitChar]
    by_cases h : c = sep
    · simp [h, List.count_cons, ih]
    · simp only [h, if_false]
      cases hs : splitChar sep cs with
      | nil => exact absurd hs (splitChar_ne_nil sep cs)
      | cons p ps =>
        rw [hs] at ih
        simp only [List.length_cons] at ih ⊢
        simp [List.count_cons, h, ih]

theorem splitChar_single (sep : Char) (l b : List Char)
    (h : splitChar sep l = [b]) : l = b := by
  induction l generalizing b with
  | nil =>
    simp [splitChar] at h
    simp [h]
  | cons c cs ih =>
    simp only [splitChar] at h
    by_cases hc : c = sep
    · simp only [hc, if_true] at h
      obtain ⟨-, h2⟩ := List.cons_eq_cons.mp h
      exact absurd h2 (splitChar_ne_nil sep cs)
    · simp only [hc, if_false] at h
      cases hs : splitChar sep cs with
      | nil => exact absurd hs (splitChar_ne_nil sep cs)
      | cons p ps =>
        rw [hs] at h
        obtain ⟨h1, h2⟩ := List.cons_eq_cons.mp h
        subst h2
        rw [← h1, ih p hs]

theorem splitChar_pair (sep : Char) (l a b : List Char)
    (h : splitChar sep l = [a, b]) : l = a ++ sep :: b := by
  induction l generalizing a with
  | nil => simp [splitChar] at h
  | cons c cs ih =>
    simp only [splitChar] at h
    by_cases hc : c = sep
    · simp only [hc, if_true] at h
      obtain ⟨h1, h2⟩ := List.cons_eq_cons.mp h
      rw [← h1, splitChar_single sep cs b h2, hc]
      rfl
    · simp only [hc, if_false] at h
      cases hs : splitChar sep cs with
      | nil => exact absurd hs (splitChar_ne_nil sep cs)
      | cons p ps =>
        rw [hs] at h
        obtain ⟨h1, h2⟩ := List.cons_eq_cons.mp h
        have := ih p (by rw [hs, h2])
        rw [← h1, this]
        rfl

theorem splitChar_not_mem (sep : Char) (l : List Char) :
    ∀ part ∈ splitChar sep l, sep ∉ part := by
  induction l with
  | nil =>
    intro part hp
    simp [splitChar] at hp
    simp [hp]
  | cons c cs ih =>
    intro part hp
    simp only [splitChar] at hp
    by_cases hc : c = sep
    · simp only [hc, if_true, List.mem_cons] at hp
      rcases hp with h | h
      · simp [h]
      · exact ih part h
    · simp only [hc, if_false] at hp
      cases hs : splitChar sep cs with
      | nil => exact absurd hs (splitChar_ne_nil sep cs)
      | cons p ps =>
        rw [hs] at hp
        rcases List.mem_cons.mp hp with h | h
        · subst h
          intro hmem
          rcases List.mem_cons.mp hmem with h | h
          · exact hc h.symm
          · exact ih p (by simp [hs]) h
        · exact ih part (by simp [hs, h])

/-! ## Claim theorems: `TradingPair::from_string` -/

/-- C3. `TradingPair::from_string` returns an error exactly when splitting
the input on `'/'` does not yield exactly two parts (separator absent or
duplicated); on success, base and quote are the first and second parts of
the split. -/
theorem from_string_spec (s : String) :
    ((∃ msg, TradingPair.from_string s = Except.error msg) ↔
      (splitChar '/' s.data).length ≠ 2) ∧
    ∀ p, TradingPair.from_string s = Except.ok p →
      splitChar '/' s.data = [p.base.data, p.quote.data] := by
  constructor
  · unfold TradingPair.from_string
    by_cases h : (splitChar '/' s.data).length = 2 <;> simp [h]
  · intro p hp
    unfold TradingPair.from_string at hp
    by_cases h : (splitChar '/' s.data).length = 2
    · rw [if_pos h] at hp
      obtain ⟨a, b, hab⟩ := List.length_eq_two.mp h
      rw [hab] at hp ⊢
      simp only [List.getD] at hp
      injection hp with hp
      rw [← hp]
      rfl
    · rw [if_neg h] at hp
      exact absurd hp (by simp)

/-- C3 witness: the theorem applied at the concrete input `"BTC/USD"`. -/
theorem from_string_spec_witness :
    splitChar '/' "BTC/USD".data = ["BTC".data, "USD".data] :=
  (from_string_spec "BTC/USD").2 { base := "BTC", quote := "USD" } rfl

/-- C4 counterexample: the input `"/"` parses successfully into the pair
with empty base and empty quote, so not every successfully parsed pair has
non-empty components. -/
theorem from_string_nonempty_false :
    ¬ ∀ s p, TradingPair.from_string s = Except.ok p →
      p.base ≠ "" ∧ p.quote ≠ "" := by
  intro h
  exact (h "/" { base := "", quote := "" } rfl).1 rfl

/-- C4 (amended). Every pair successfully produced by
`TradingPair::from_string` has base and quote equal to the two parts of the
split — the input is base ++ `'/'` ++ quote and neither component contains
`'/'` — but the components may be empty; emptiness is not validated. -/
theorem from_string_parts (s : String) (p : TradingPair)
    (h : TradingPair.from_string s = Except.ok p) :
    s.data = p.base.data ++ '/' :: p.quote.data ∧
    '/' ∉ p.base.data ∧ '/' ∉ p.quote.data := by
  have hsplit := (from_string_spec s).2 p h
  refine ⟨splitChar_pair '/' s.data p.base.data p.quote.data hsplit, ?_, ?_⟩
  · exact splitChar_not_mem '/' s.data p.base.data (by simp [hsplit])
  · exact splitChar_not_mem '/' s.data p.quote.data (by simp [hsplit])

/-- C4 witness: the amended theorem applied at the concrete input
`"BTC/USD"`. -/
theorem from_string_parts_witness :
    "BTC/USD".data = "BTC".data ++ '/' :: "USD".data ∧
    '/' ∉ "BTC".data ∧ '/' ∉ "USD".data :=
  from_string_parts "BTC/USD" { base := "BTC", quote := "USD" } rfl

/-! ## Claim theorems: matching never leaves a crossed book -/

/-- The matching loop stops only in an uncrossed state, provided the fuel
covers the total number of resting orders: every iteration removes at least
one order (the one whose remaining quantity hit zero). -/
theorem matchLoop_uncrossed (pair : TradingPair) (fuel : Nat) (s : MatchState)
    (hfuel : s.bids.length + s.asks.length ≤ fuel) :
    (matchLoop pair fuel s).uncrossed = true := by
  induction fuel generalizing s with
  | zero =>
    have hb : s.bids = [] := List.length_eq_zero.mp (by omega)
    simp [matchLoop, MatchState.uncrossed, uncrossedSides, hb]
  | succ n ih =>
    cases hb : s.bids with
    | nil => simp [matchLoop, MatchState.uncrossed, uncrossedSides, hb]
    | cons bid restBids =>
      cases ha : s.asks with
      | nil => simp [matchLoop, MatchState.uncrossed, uncrossedSides, hb, ha]
      | cons ask restAsks =>
        by_cases hlt : bid.price < ask.price
        · simp [matchLoop, MatchState.uncrossed, uncrossedSides, hb, ha, hlt]
        · rw [hb, ha] at hfuel
          simp only [List.length_cons] at hfuel
          simp only [matchLoop, hb, ha, if_neg hlt]
          apply ih
          have hkey : bid.quantity - min bid.quantity ask.quantity = 0 ∨
              ask.quantity - min bid.quantity ask.quantity = 0 := by
            rcases min_choice bid.quantity ask.quantity with hm | hm
            · exact Or.inl (by rw [hm, sub_self])
            · exact Or.inr (by rw [hm, sub_self])
          rcases hkey with h0 | h0
          · rw [if_pos h0]
            split_ifs <;> simp only [List.length_cons] <;> omega
          · rw [if_pos h0]
            split_ifs <;> simp only [List.length_cons] <;> omega

/-- C1. After any `match_orders` call, the book is never left crossed:
either a side is empty or the best bid price is strictly below the best ask
price. Stated for every book state, hence for every book reachable by any
sequence of orders. -/
theorem match_orders_not_crossed (b : SimpleOrderBook) :
    b.match_orders.1.uncrossed = true := by
  have h := matchLoop_uncrossed b.pair (b.bids.length + b.asks.length)
    { bids := b.bids, asks := b.asks, newTrades := [], lastPrice := b.lastPrice,
      nextTradeId := b.nextTradeId } le_rfl
  simpa [SimpleOrderBook.match_orders, SimpleOrderBook.uncrossed,
    MatchState.uncrossed] using h

/-! ## Lemmas about the pair-to-book map -/

theorem lookupBook_insert_self (books : List (TradingPair × SimpleOrderBook))
    (p : TradingPair) (b : SimpleOrderBook) (h : lookupBook books p = none) :
    lookupBook (insertBook books p b) p = some b := by
  induction books with
  | nil => simp [insertBook, lookupBook]
  | cons qb rest ih =>
    obtain ⟨q, b0⟩ := qb
    simp only [lookupBook] at h
    by_cases hq : q = p
    · simp [hq] at h
    · simp only [insertBook, List.cons_append, lookupBook, if_neg hq] at *
      exact ih h

theorem updateBook_keys (books : List (TradingPair × SimpleOrderBook))
    (p : TradingPair) (b : SimpleOrderBook) :
    (updateBook books p b).map Prod.fst = books.map Prod.fst := by
  induction books with
  | nil => rfl
  | cons qb rest ih =>
    obtain ⟨q, b0⟩ := qb
    simp only [updateBook]
    by_cases hq : q = p
    · simp [hq]
    · simp [hq, ih]

/-! ## Lemmas about the dispatch loop -/

/-- Every message other than `Shutdown` lets the loop continue. -/
theorem step_continue (e : Engine) (m : Message) (h : m ≠ Message.Shutdown) :
    (e.step m).2.2 = true := by
  cases m with
  | NewOrder o => rfl
  | PriceUpdate u => rfl
  | MatchOrders p =>
    simp only [Engine.step]
    cases lookupBook e.order_books p <;> rfl
  | GetPrice p d => rfl
  | GetOrderBook p d => rfl
  | GetTradeHistory p d => rfl
  | Shutdown => exact absurd rfl h

/-- Without a `Shutdown` in the queue the loop folds `step` over the whole
queue and processes every message. -/
theorem run_all_of_no_shutdown (e : Engine) (msgs : List Message) :
    Message.Shutdown ∉ msgs →
    e.run msgs = (msgs.foldl (fun acc m => (acc.step m).1) e, msgs) := by
  induction msgs generalizing e with
  | nil => intro h; rfl
  | cons m rest ih =>
    intro h
    have hm : m ≠ Message.Shutdown := fun hh => h (hh ▸ List.mem_cons_self m rest)
    have hrest : Message.Shutdown ∉ rest := fun hh => h (List.mem_cons_of_mem m hh)
    simp only [Engine.run, step_continue e m hm, if_true, List.foldl_cons]
    rw [ih _ hrest]

/-! ## Claim theorems: the Engine actor -/

/-- C2. Handling `GetPrice` for a pair with no book creates the new empty
book of that pair, inserts it into the map, delivers the reply `none` on the
caller's channel, and the loop continues; afterwards the map contains the
book for that pair. -/
theorem get_price_missing_creates_book (e : Engine) (pair : TradingPair)
    (h : lookupBook e.order_books pair = none) :
    (e.step (Message.GetPrice pair false)).2.1 = some (Reply.price none) ∧
    lookupBook (e.step (Message.GetPrice pair false)).1.order_books pair =
      some (SimpleOrderBook.new pair) ∧
    (e.step (Message.GetPrice pair false)).2.2 = true := by
  refine ⟨?_, ?_, rfl⟩
  · simp [Engine.step, Engine.process_get_price, h, SimpleOrderBook.get_current_price,
      SimpleOrderBook.new]
  · simp only [Engine.step, Engine.process_get_price, h]
    exact lookupBook_insert_self e.order_books pair (SimpleOrderBook.new pair) h

/-- C2 witness: the theorem applied to the empty engine and the pair
`BTC/USD`. -/
theorem get_price_missing_creates_book_witness :
    (Engine.mk []).step (Message.GetPrice { base := "BTC", quote := "USD" } false)
        |>.2.1 = some (Reply.price none) ∧
    lookupBook ((Engine.mk []).step
        (Message.GetPrice { base := "BTC", quote := "USD" } false)).1.order_books
        { base := "BTC", quote := "USD" } =
      some (SimpleOrderBook.new { base := "BTC", quote := "USD" }) ∧
    ((Engine.mk []).step
        (Message.GetPrice { base := "BTC", quote := "USD" } false)).2.2 = true :=
  get_price_missing_creates_book (Engine.mk []) { base := "BTC", quote := "USD" } rfl

/-- C5. A dequeued `Shutdown` drains every existing book through
`match_orders` (the effect of `Engine::shutdown` on the final engine state)
and terminates the loop: the processed messages are exactly those ahead of
the `Shutdown` plus the `Shutdown` itself, and nothing queued behind it is
ever processed. -/
theorem shutdown_is_terminal (e : Engine) (pre post : List Message)
    (h : Message.Shutdown ∉ pre) :
    e.run (pre ++ Message.Shutdown :: post) =
      ((e.run pre).1.shutdown, pre ++ [Message.Shutdown]) := by
  induction pre generalizing e with
  | nil => simp [Engine.run, Engine.step]
  | cons m rest ih =>
    have hm : m ≠ Message.Shutdown := fun hh => h (hh ▸ List.mem_cons_self m rest)
    have hrest : Message.Shutdown ∉ rest := fun hh => h (List.mem_cons_of_mem m hh)
    simp only [List.cons_append, Engine.run, step_continue e m hm, if_true,
      List.append_eq]
    rw [ih _ hrest]

/-- C5 witness: the theorem applied to a concrete queue holding one message
before and one after the `Shutdown`. -/
theorem shutdown_is_terminal_witness :
    (Engine.mk []).run
        [Message.NewOrder sampleOrder, Message.Shutdown,
         Message.GetPrice btcusd false] =
      (((Engine.mk []).run [Message.NewOrder sampleOrder]).1.shutdown,
       [Message.NewOrder sampleOrder, Message.Shutdown]) :=
  shutdown_is_terminal (Engine.mk []) [Message.NewOrder sampleOrder]
    [Message.GetPrice btcusd false] (by decide)

/-- C6. A query against a pair with no book never produces an error:
`GetOrderBook` delivers empty bid and ask lists, `GetTradeHistory` delivers
an empty trade list, and `GetPrice` delivers `none`. -/
theorem missing_pair_queries_are_total (e : Engine) (pair : TradingPair)
    (h : lookupBook e.order_books pair = none) :
    (e.step (Message.GetOrderBook pair false)).2.1 = some (Reply.book [] []) ∧
    (e.step (Message.GetTradeHistory pair false)).2.1 = some (Reply.history []) ∧
    (e.step (Message.GetPrice pair false)).2.1 = some (Reply.price none) := by
  refine ⟨?_, ?_, ?_⟩
  · simp [Engine.step, Engine.process_get_order_book, h]
  · simp [Engine.step, Engine.process_get_trade_history, h]
  · simp [Engine.step, Engine.process_get_price, h, SimpleOrderBook.get_current_price,
      SimpleOrderBook.new]

/-- C6 witness: the theorem applied to the empty engine and the pair
`ETH/USD`. -/
theorem missing_pair_queries_are_total_witness :
    ((Engine.mk []).step
        (Message.GetOrderBook { base := "ETH", quote := "USD" } false)).2.1 =
      some (Reply.book [] []) ∧
    ((Engine.mk []).step
        (Message.GetTradeHistory { base := "ETH", quote := "USD" } false)).2.1 =
      some (Reply.history []) ∧
    ((Engine.mk []).step
        (Message.GetPrice { base := "ETH", quote := "USD" } false)).2.1 =
      some (Reply.price none) :=
  missing_pair_queries_are_total (Engine.mk []) { base := "ETH", quote := "USD" } rfl

/-- C7. For each query message, a reply channel whose receiver was dropped
is harmless: no reply is delivered, the engine state transition is exactly
the one taken when the receiver is alive, and the loop continues to the next
message. -/
theorem dropped_receiver_is_ignored (e : Engine) (pair : TradingPair) :
    ((e.step (Message.GetPrice pair true)).1 =
        (e.step (Message.GetPrice pair false)).1 ∧
      (e.step (Message.GetPrice pair true)).2.1 = none ∧
      (e.step (Message.GetPrice pair true)).2.2 = true) ∧
    ((e.step (Message.GetOrderBook pair true)).1 =
        (e.step (Message.GetOrderBook pair false)).1 ∧
      (e.step (Message.GetOrderBook pair true)).2.1 = none ∧
      (e.step (Message.GetOrderBook pair true)).2.2 = true) ∧
    ((e.step (Message.GetTradeHistory pair true)).1 =
        (e.step (Message.GetTradeHistory pair false)).1 ∧
      (e.step (Message.GetTradeHistory pair true)).2.1 = none ∧
      (e.step (Message.GetTradeHistory pair true)).2.2 = true) := by
  cases hl : lookupBook e.order_books pair <;>
    simp [Engine.step, Engine.process_get_price, Engine.process_get_order_book,
      Engine.process_get_trade_history, hl]

/-- C8. A `PriceUpdate` is informational only: the pair-to-book map and
every book are untouched, no reply is sent, and the loop continues. -/
theorem price_update_is_noop (e : Engine) (u : PriceUpdate) :
    e.step (Message.PriceUpdate u) = (e, none, true) :=
  rfl

/-- C9. The loop terminates only on an explicit `Shutdown` or when the
queue closes: as long as no `Shutdown` is dequeued, every message in the
queue is processed and the loop ends only by exhausting it. -/
theorem only_shutdown_or_close_terminates (e : Engine) (msgs : List Message)
    (h : Message.Shutdown ∉ msgs) :
    (e.run msgs).2 = msgs := by
  rw [run_all_of_no_shutdown e msgs h]

/-- C9 witness: the theorem applied to a queue holding one message of every
non-`Shutdown` kind. -/
theorem only_shutdown_or_close_terminates_witness :
    ((Engine.mk []).run
        [Message.NewOrder sampleOrder, Message.PriceUpdate sampleUpdate,
         Message.MatchOrders btcusd, Message.GetOrderBook btcusd false,
         Message.GetTradeHistory btcusd false, Message.GetPrice btcusd false]).2 =
      [Message.NewOrder sampleOrder, Message.PriceUpdate sampleUpdate,
       Message.MatchOrders btcusd, Message.GetOrderBook btcusd false,
       Message.GetTradeHistory btcusd false, Message.GetPrice btcusd false] :=
  only_shutdown_or_close_terminates (Engine.mk []) _ (by decide)

/-- C10. Handling `GetOrderBook` or `GetTradeHistory` for a pair with no
book leaves the engine unchanged (no book is created), and no message other
than `NewOrder` and `GetPrice` ever changes the key set of the pair-to-book
map. -/
theorem reads_never_create_books (e : Engine) (pair : TradingPair) (d : Bool)
    (m : Message) (hpair : lookupBook e.order_books pair = none)
    (hm : insertsBook m = false) :
    (e.step (Message.GetOrderBook pair d)).1 = e ∧
    (e.step (Message.GetTradeHistory pair d)).1 = e ∧
    booksKeys (e.step m).1 = booksKeys e := by
  refine ⟨?_, ?_, ?_⟩
  · simp [Engine.step, Engine.process_get_order_book, hpair]
  · simp [Engine.step, Engine.process_get_trade_history, hpair]
  · cases m with
    | NewOrder o => simp [insertsBook] at hm
    | GetPrice p dd => simp [insertsBook] at hm
    | PriceUpdate u => rfl
    | Shutdown =>
      simp [Engine.step, Engine.shutdown, booksKeys, List.map_map, Function.comp]
    | MatchOrders p =>
      simp only [Engine.step]
      cases hl : lookupBook e.order_books p
      · rfl
      · simp [booksKeys, updateBook_keys]
    | GetOrderBook p dd =>
      cases hl : lookupBook e.order_books p <;>
        simp [Engine.step, Engine.process_get_order_book, hl]
    | GetTradeHistory p dd =>
      cases hl : lookupBook e.order_books p <;>
        simp [Engine.step, Engine.process_get_trade_history, hl]

/-- C10 witness: the theorem applied to the empty engine with a
`MatchOrders` message, one of the kinds that never inserts a book. -/
theorem reads_never_create_books_witness :
    ((Engine.mk []).step (Message.GetOrderBook btcusd false)).1 = Engine.mk [] ∧
    ((Engine.mk []).step (Message.GetTradeHistory btcusd false)).1 = Engine.mk [] ∧
    booksKeys ((Engine.mk []).step (Message.MatchOrders btcusd)).1 =
      booksKeys (Engine.mk []) :=
  reads_never_create_books (Engine.mk []) btcusd false
    (Message.MatchOrders btcusd) rfl rfl

end BasicEngine
